import Mathlib

/-!
Verification of the decoder engine of this repository (src/src/Tree.ts: the
`Decoder` combinators and the `toTree` error formatter).

The JavaScript runtime values the decoders consume and produce are embedded as
the inductive `JsValue`; JS numbers are modelled as rationals (ℚ), which keeps
`Number.isInteger` decidable (`den = 1`).  Objects are ordered association
lists of string keys, matching insertion-order enumeration of plain JS objects
with non-index keys.  Each decoder is a pure function
`JsValue → Except DecodeError JsValue`; the TypeScript type parameter of
`Decoder<A>` is erased, exactly as it is at the JS runtime.
-/

namespace IoTs

/-- A JavaScript runtime value (the `unknown` input of a decoder). -/
inductive JsValue : Type where
  | undefined : JsValue
  | null : JsValue
  | boolean : Bool → JsValue
  | number : ℚ → JsValue
  | string : String → JsValue
  | array : List JsValue → JsValue
  | object : List (String × JsValue) → JsValue

/-- Guard `G.string.is` (`typeof u === "string"`). -/
def isStringV : JsValue → Bool
  | .string _ => true
  | _ => false

/-- Guard `G.number.is` (`typeof u === "number"`). -/
def isNumberV : JsValue → Bool
  | .number _ => true
  | _ => false

/-- Guard `G.boolean.is` (`typeof u === "boolean"`). -/
def isBooleanV : JsValue → Bool
  | .boolean _ => true
  | _ => false

/-- Guard `G.UnknownArray.is` (`Array.isArray(u)`). -/
def isArrayV : JsValue → Bool
  | .array _ => true
  | _ => false

/-- Guard `G.UnknownRecord.is`
(`Object.prototype.toString.call(u) === "[object Object]"`): true exactly for
plain key-value records. -/
def isRecordV : JsValue → Bool
  | .object _ => true
  | _ => false

/-- JS property read `r[k]` on a plain object: the value at the first matching
own key, `undefined` when the key is absent. -/
def objGet (fields : List (String × JsValue)) (k : String) : JsValue :=
  match fields.find? (fun p => p.1 == k) with
  | some p => p.2
  | none => .undefined

/-- Optional property lookup, distinguishing an absent key from a key whose
value is `undefined`. -/
def fieldsGet (fields : List (String × JsValue)) (k : String) : Option JsValue :=
  (fields.find? (fun p => p.1 == k)).map (fun p => p.2)

/-- JS property write `fields[k] = v`: overwrite in place when the key exists
(insertion order kept), append otherwise. -/
def setField (fields : List (String × JsValue)) (k : String) (v : JsValue) :
    List (String × JsValue) :=
  match fields with
  | [] => [(k, v)]
  | p :: rest => if p.1 == k then (k, v) :: rest else p :: setField rest k v

/-- The `DecodeError` tagged tree (module `DecodeError` of the repository;
its five variants and smart constructors `leaf`/`indexed`/`labeled`/`and`/`or`
are plain data constructors, mirrored here as the constructors of an
inductive). -/
inductive DecodeError : Type where
  | leaf : String → JsValue → DecodeError
  | indexed : String → JsValue → List (Nat × DecodeError) → DecodeError
  | labeled : String → JsValue → List (String × DecodeError) → DecodeError
  | and : String → JsValue → List DecodeError → DecodeError
  | or : String → JsValue → List DecodeError → DecodeError

/-- The `expected` field shared by every `DecodeError` variant. -/
def DecodeError.expected : DecodeError → String
  | .leaf e _ => e
  | .indexed e _ _ => e
  | .labeled e _ _ => e
  | .and e _ _ => e
  | .or e _ _ => e

/-- The `actual` field shared by every `DecodeError` variant. -/
def DecodeError.actual : DecodeError → JsValue
  | .leaf _ a => a
  | .indexed _ a _ => a
  | .labeled _ a _ => a
  | .and _ a _ => a
  | .or _ a _ => a

/-- `Decoder<A>`: a function from an input value to `Either<DecodeError, A>`.
`Except.error` is the `Left` (failure) side, `Except.ok` the `Right`. -/
structure Decoder : Type where
  decode : JsValue → Except DecodeError JsValue

/-- `fromRefinement(refinement, expected)`: succeed with the input itself when
the predicate holds, else fail with `leaf(expected, u)`. -/
def fromRefinement (p : JsValue → Bool) (expected : String) : Decoder :=
  ⟨fun u => if p u then .ok u else .error (.leaf expected u)⟩

/-- The `never` primitive: fails on every input with `leaf("never", u)`. -/
def never : Decoder :=
  ⟨fun u => .error (.leaf "never" u)⟩

/-- The `string` primitive. -/
def string : Decoder := fromRefinement isStringV "string"

/-- The `number` primitive. -/
def number : Decoder := fromRefinement isNumberV "number"

/-- The `boolean` primitive. -/
def boolean : Decoder := fromRefinement isBooleanV "boolean"

/-- The `UnknownArray` primitive. -/
def UnknownArray : Decoder := fromRefinement isArrayV "Array<unknown>"

/-- The `UnknownRecord` primitive. -/
def UnknownRecord : Decoder := fromRefinement isRecordV "Record<string, unknown>"

/-- `refinement(decoder, refinement, expected)`: run the base decoder,
propagate its failure unchanged; on success test the predicate on the decoded
value `b`, fail with `leaf(expected, b)` when it does not hold. -/
def refinement (d : Decoder) (p : JsValue → Bool) (expected : String) : Decoder :=
  ⟨fun u =>
    match d.decode u with
    | .error e => .error e
    | .ok b => if p b then .ok b else .error (.leaf expected b)⟩

/-- `Number.isInteger(n)` on the embedded number: a rational with denominator
one.  The predicate is only ever applied to values `number` has accepted. -/
def isIntegerV : JsValue → Bool
  | .number q => q.den == 1
  | _ => false

/-- The `Int` primitive: `refinement(number, Number.isInteger, "Int")`. -/
def Int : Decoder := refinement number isIntegerV "Int"

/-- `mapLeft(decoder, f)`: apply `f` to the error on failure. -/
def mapLeftD (d : Decoder) (f : DecodeError → DecodeError) : Decoder :=
  ⟨fun u =>
    match d.decode u with
    | .ok v => .ok v
    | .error e => .error (f e)⟩

/-- The error transformer used by `withExpected`: the object spread
`( ...e, expected )` keeps every field of the error but replaces `expected`. -/
def setExpected (e : DecodeError) (expected : String) : DecodeError :=
  match e with
  | .leaf _ a => .leaf expected a
  | .indexed _ a es => .indexed expected a es
  | .labeled _ a es => .labeled expected a es
  | .and _ a es => .and expected a es
  | .or _ a es => .or expected a es

/-- `withExpected(decoder, expected)`. -/
def withExpected (d : Decoder) (expected : String) : Decoder :=
  mapLeftD d (fun e => setExpected e expected)

/-- The field loop of `type`: iterate the declared field decoders in
declaration order, feeding each `r[k]` (so `undefined` for an absent key);
collect successes and `(key, error)` failures, both in declaration order. -/
def typeLoop (ds : List (String × Decoder)) (r : List (String × JsValue)) :
    List (String × JsValue) × List (String × DecodeError) :=
  match ds with
  | [] => ([], [])
  | (k, d) :: rest =>
    let tl := typeLoop rest r
    match d.decode (objGet r k) with
    | .error e => (tl.1, (k, e) :: tl.2)
    | .ok v => ((k, v) :: tl.1, tl.2)

/-- The `type` combinator.  The `UnknownRecord` precondition of the source is
inlined: a non-record input fails with `UnknownRecord`'s own
`leaf("Record<string, unknown>", u)` propagated verbatim; on a record the
declared fields are decoded exhaustively and a non-empty failure accumulator
becomes `labeled("type", u, es)`. -/
def type (ds : List (String × Decoder)) : Decoder :=
  ⟨fun u =>
    match u with
    | .object r =>
      let p := typeLoop ds r
      if p.2.isEmpty then .ok (.object p.1) else .error (.labeled "type" u p.2)
    | _ => .error (.leaf "Record<string, unknown>" u)⟩

/-- The field loop of the source combinator `partial`: like `typeLoop`, except
a field whose value reads `undefined` (absent or explicitly undefined) is
skipped entirely — neither decoded nor present in the result. -/
def partialLoop (ds : List (String × Decoder)) (r : List (String × JsValue)) :
    List (String × JsValue) × List (String × DecodeError) :=
  match ds with
  | [] => ([], [])
  | (k, d) :: rest =>
    let tl := partialLoop rest r
    match objGet r k with
    | .undefined => tl
    | v =>
      match d.decode v with
      | .error e => (tl.1, (k, e) :: tl.2)
      | .ok w => ((k, w) :: tl.1, tl.2)

/-- The source combinator `partial` (named `partialD` here because `partial`
is a Lean keyword): optional-field record decoding, failure accumulator
wrapped as `labeled("partial", u, es)`. -/
def partialD (ds : List (String × Decoder)) : Decoder :=
  ⟨fun u =>
    match u with
    | .object r =>
      let p := partialLoop ds r
      if p.2.isEmpty then .ok (.object p.1) else .error (.labeled "partial" u p.2)
    | _ => .error (.leaf "Record<string, unknown>" u)⟩

/-- The key loop of `record`: iterate the input's own keys in enumeration
order, decoding every value with the single value decoder. -/
def recordLoop (d : Decoder) (r : List (String × JsValue)) :
    List (String × JsValue) × List (String × DecodeError) :=
  match r with
  | [] => ([], [])
  | (k, v) :: rest =>
    let tl := recordLoop d rest
    match d.decode v with
    | .error e => (tl.1, (k, e) :: tl.2)
    | .ok w => ((k, w) :: tl.1, tl.2)

/-- The `record` combinator (homogeneous dictionary). -/
def record (d : Decoder) : Decoder :=
  ⟨fun u =>
    match u with
    | .object r =>
      let p := recordLoop d r
      if p.2.isEmpty then .ok (.object p.1) else .error (.labeled "record" u p.2)
    | _ => .error (.leaf "Record<string, unknown>" u)⟩

/-- The element loop of `array`: decode every element by position (`i` is the
index of the head), collecting `(index, error)` failures in position order. -/
def arrayLoop (d : Decoder) (us : List JsValue) (i : Nat) :
    List JsValue × List (Nat × DecodeError) :=
  match us with
  | [] => ([], [])
  | v :: rest =>
    let tl := arrayLoop d rest (i + 1)
    match d.decode v with
    | .error e => (tl.1, (i, e) :: tl.2)
    | .ok w => (w :: tl.1, tl.2)

/-- The `array` combinator.  Non-array inputs fail with `UnknownArray`'s
`leaf("Array<unknown>", u)` propagated verbatim; element failures wrap as
`indexed("array", u, es)`. -/
def array (d : Decoder) : Decoder :=
  ⟨fun u =>
    match u with
    | .array us =>
      let p := arrayLoop d us 0
      if p.2.isEmpty then .ok (.array p.1) else .error (.indexed "array" u p.2)
    | _ => .error (.leaf "Array<unknown>" u)⟩

/-- The position loop of `tuple`: position `i` is decoded by the `i`-th member
decoder applied to `us[i]`, which in JS reads `undefined` past the end of the
input array (`List.getD i .undefined`); extra input elements are ignored. -/
def tupleLoop (ds : List Decoder) (us : List JsValue) (i : Nat) :
    List JsValue × List (Nat × DecodeError) :=
  match ds with
  | [] => ([], [])
  | d :: rest =>
    let tl := tupleLoop rest us (i + 1)
    match d.decode (us.getD i .undefined) with
    | .error e => (tl.1, (i, e) :: tl.2)
    | .ok w => (w :: tl.1, tl.2)

/-- The `tuple` combinator: failure wraps as `indexed("tuple", u, es)`. -/
def tuple (ds : List Decoder) : Decoder :=
  ⟨fun u =>
    match u with
    | .array us =>
      let p := tupleLoop ds us 0
      if p.2.isEmpty then .ok (.array p.1) else .error (.indexed "tuple" u p.2)
    | _ => .error (.leaf "Array<unknown>" u)⟩

/-- The member loop of `intersection`: run every member decoder on the same
input `u`, collecting successes and failures, each in member order.
In the source the success slots live in a sparse array whose holes mark the
failed members; that array is only consumed when every member succeeded (the
failure branch discards it), so collecting the successes densely is
observationally the same. -/
def intersectionLoop (ds : List Decoder) (u : JsValue) :
    List JsValue × List DecodeError :=
  match ds with
  | [] => ([], [])
  | d :: rest =>
    let tl := intersectionLoop rest u
    match d.decode u with
    | .error e => (tl.1, e :: tl.2)
    | .ok v => (v :: tl.1, tl.2)

/-- One step of `Object.assign(acc, v)` as used by the intersection merge:
copy every own field of a source object into the accumulator, overwriting
already-present keys; a non-object source contributes nothing (the merge
branch of `intersection` only ever reaches objects). -/
def assignObj (acc : List (String × JsValue)) (v : JsValue) :
    List (String × JsValue) :=
  match v with
  | .object fs => fs.foldl (fun a p => setField a p.1 p.2) acc
  | _ => acc

/-- The merged success of `intersection`: when some successful value is not a
plain record (`Object.prototype.toString.call(a) !== "[object Object]"`) the
last member's value (`as[as.length - 1]`); otherwise
`Object.assign(empty, ...as)`, the shallow merge where later members'
keys win. -/
def intersectionMerge (as : List JsValue) : JsValue :=
  if as.any (fun a => !isRecordV a) then as.getLastD .undefined
  else .object (as.foldl assignObj [])

/-- The `intersection` combinator: a zero-member intersection succeeds with
the raw input unchanged; otherwise every member runs on the same input, a
non-empty failure list wraps as `and("intersection", u, es)`, and an
all-success run yields the merged value. -/
def intersection (ds : List Decoder) : Decoder :=
  ⟨fun u =>
    if ds.isEmpty then .ok u
    else
      let p := intersectionLoop ds u
      if p.2.isEmpty then .ok (intersectionMerge p.1)
      else .error (.and "intersection" u p.2)⟩

/-- The `lazy` combinator.  Its memo cell is unobservable in a pure model
(the supplier is a pure function, so caching its single result returns the
same decoder every call); decoding simply delegates to the supplied decoder. -/
def lazy (f : Unit → Decoder) : Decoder :=
  ⟨fun u => (f ()).decode u⟩

/-- A minimal model of the host `JSON.stringify` on one string: surround with
double quotes, escaping backslash and double quote. -/
def escapeChar (c : Char) : String :=
  if c = '\\' then "\\\\" else if c = '\"' then "\\\"" else String.singleton c

/-- JSON quotation of a string (`JSON.stringify(k)` for a string `k`). -/
def jsonQuote (s : String) : String :=
  "\"" ++ String.join (s.toList.map escapeChar) ++ "\""

/-- `Array.prototype.join(sep)`. -/
def joinSep (sep : String) : List String → String
  | [] => ""
  | [x] => x
  | x :: y :: xs => x ++ sep ++ joinSep sep (y :: xs)

/-- `hasOwnProperty(defs, v)` followed by `defs[v]`: the member decoder at a
declared key, if any. -/
def lookupDec (defs : List (String × Decoder)) (k : String) : Option Decoder :=
  (defs.find? (fun p => p.1 == k)).map (fun p => p.2)

/-- The `expected` label of a failed `sum`: every declared key JSON-quoted,
joined with a pipe. -/
def sumExpected (defs : List (String × Decoder)) : String :=
  joinSep " | " (defs.map (fun p => jsonQuote p.1))

/-- The defensive overwrite `er.right[tag] = v` of `sum`: set the field on an
object result.  On a non-object result the strict-mode source would throw a
TypeError; that path is unreachable through the typed API (member decoders of
a sum decode to records), and the model leaves such a value unchanged. -/
def jsSet (v : JsValue) (k : String) (w : JsValue) : JsValue :=
  match v with
  | .object fs => .object (setField fs k w)
  | _ => v

/-- The `sum(tag)(defs)` combinator: an empty mapping yields `never`;
otherwise require a record, read the discriminant `r[tag]`; a string value
that is a declared key delegates the whole input to that member and overwrites
the discriminant field on the member's success; any other discriminant fails
with `labeled("sum", u, [(tag, leaf(<quoted keys joined with pipes>, v))])`. -/
def sum (tag : String) (defs : List (String × Decoder)) : Decoder :=
  if defs.isEmpty then never
  else
    ⟨fun u =>
      match u with
      | .object r =>
        let v := objGet r tag
        match v with
        | .string s =>
          match lookupDec defs s with
          | some d =>
            match d.decode u with
            | .error e => .error e
            | .ok out => .ok (jsSet out tag (.string s))
          | none => .error (.labeled "sum" u [(tag, .leaf (sumExpected defs) v)])
        | _ => .error (.labeled "sum" u [(tag, .leaf (sumExpected defs) v)])
      | _ => .error (.leaf "Record<string, unknown>" u)⟩

/-- The member loop of `union`: first success wins; when every member fails,
the list of every member's error in declared order. -/
def unionLoop (ds : List Decoder) (u : JsValue) :
    Except (List DecodeError) JsValue :=
  match ds with
  | [] => .error []
  | d :: rest =>
    match d.decode u with
    | .ok v => .ok v
    | .error e =>
      match unionLoop rest u with
      | .ok v => .ok v
      | .error es => .error (e :: es)

/-- The `union` combinator: a zero-member union is `never`; otherwise try the
members in order, return the first success, and when all fail wrap every
member's error as `or("union", u, es)`. -/
def union (ds : List Decoder) : Decoder :=
  if ds.isEmpty then never
  else
    ⟨fun u =>
      match unionLoop ds u with
      | .ok v => .ok v
      | .error es => .error (.or "union" u es)⟩

/-- The `map` operation of the `decoder` instance:
`E.either.map(fa.decode(u), f)`. -/
def mapD (fa : Decoder) (f : JsValue → JsValue) : Decoder :=
  ⟨fun u =>
    match fa.decode u with
    | .ok v => .ok (f v)
    | .error e => .error e⟩

/-- The `of` operation of the `decoder` instance: always succeed with `a`. -/
def of (a : JsValue) : Decoder :=
  ⟨fun _ => .ok a⟩

/-- The `alt` operation of the `decoder` instance:
`E.either.alt(fx.decode(u), () => fy().decode(u))` — on the first decoder's
failure, return the second decoder's entire result (the first error is not
kept). -/
def alt (fx : Decoder) (fy : Unit → Decoder) : Decoder :=
  ⟨fun u =>
    match fx.decode u with
    | .ok v => .ok v
    | .error _ => (fy ()).decode u⟩

/-- Rendering of an embedded number by the host `JSON.stringify`: integers as
their numeral; a non-integral rational is shown as a fraction (the host prints
a decimal expansion of the float — the exact digit string of non-integers is
outside this model and never inspected by the theorems). -/
def ratRepr (q : ℚ) : String :=
  if q.den = 1 then toString q.num
  else toString q.num ++ "/" ++ toString q.den

mutual

/-- A model of the host `JSON.stringify` interpolated into the message
template of `toTree` (so a top-level `undefined`, for which `JSON.stringify`
returns no string, renders as the text `undefined`).  Inside arrays,
`undefined` elements render as `null`; object entries whose value is
`undefined` are omitted, as the host does. -/
def jsonStringify : JsValue → String
  | .undefined => "undefined"
  | .null => "null"
  | .boolean b => if b then "true" else "false"
  | .number q => ratRepr q
  | .string s => jsonQuote s
  | .array xs => "[" ++ joinSep "," (jsonElems xs) ++ "]"
  | .object fs => "\x7b" ++ joinSep "," (jsonFields fs) ++ "\x7d"

/-- Array elements under `JSON.stringify` (`undefined` becomes `null`). -/
def jsonElems : List JsValue → List String
  | [] => []
  | x :: xs =>
    (match x with
     | .undefined => "null"
     | _ => jsonStringify x) :: jsonElems xs

/-- Object entries under `JSON.stringify` (`undefined`-valued keys omitted). -/
def jsonFields : List (String × JsValue) → List String
  | [] => []
  | (k, v) :: rest =>
    match v with
    | .undefined => jsonFields rest
    | _ => (jsonQuote k ++ ":" ++ jsonStringify v) :: jsonFields rest

end

/-- The rose tree `Tree<string>` of fp-ts that `toTree` produces
(`make(value, forest)`). -/
inductive RoseTree : Type where
  | node : String → List RoseTree → RoseTree

/-- The root line of a rose tree. -/
def RoseTree.value : RoseTree → String
  | .node v _ => v

/-- The children of a rose tree, each one level below the root. -/
def RoseTree.forest : RoseTree → List RoseTree
  | .node _ f => f

/-- The record spread `( ...t, value: p ++ t.value )` of `toTree`: prefix the
root line, keep the subtree. -/
def prefixRoot (p : String) (t : RoseTree) : RoseTree :=
  match t with
  | .node v f => .node (p ++ v) f

/-- The message of one `toTree` node:
`Cannot decode <JSON.stringify(e.actual)>, expected <e.expected>`. -/
def errMsg (expected : String) (actual : JsValue) : String :=
  "Cannot decode " ++ jsonStringify actual ++ ", expected " ++ expected

mutual

/-- The `toTree` formatter of `Tree.ts`: one node per error, children from
the child errors, with the root line of an `Indexed` child prefixed by its
index in parentheses and of a `Labeled` child by its JSON-quoted key in
parentheses; `And`/`Or` children carry no prefix. -/
def toTree : DecodeError → RoseTree
  | .leaf exp act => .node (errMsg exp act) []
  | .indexed exp act es => .node (errMsg exp act) (toTreeIdx es)
  | .labeled exp act es => .node (errMsg exp act) (toTreeKey es)
  | .and exp act es => .node (errMsg exp act) (toTreeList es)
  | .or exp act es => .node (errMsg exp act) (toTreeList es)

/-- Children of an `Indexed` node: `(i) ` prefixes. -/
def toTreeIdx : List (Nat × DecodeError) → List RoseTree
  | [] => []
  | (i, e) :: rest =>
    prefixRoot ("(" ++ toString i ++ ") ") (toTree e) :: toTreeIdx rest

/-- Children of a `Labeled` node: `("k") ` prefixes. -/
def toTreeKey : List (String × DecodeError) → List RoseTree
  | [] => []
  | (k, e) :: rest =>
    prefixRoot ("(" ++ jsonQuote k ++ ") ") (toTree e) :: toTreeKey rest

/-- Children of an `And`/`Or` node: no prefix. -/
def toTreeList : List DecodeError → List RoseTree
  | [] => []
  | e :: rest => toTree e :: toTreeList rest

end

/-- The well-formedness invariant of `DecodeError` trees: every composite
variant (`Indexed`/`Labeled`/`And`/`Or`) anywhere in the tree has a non-empty
child-error sequence. -/
inductive ErrOk : DecodeError → Prop where
  | leaf (exp : String) (act : JsValue) : ErrOk (.leaf exp act)
  | indexed (exp : String) (act : JsValue) (es : List (Nat × DecodeError)) :
      es ≠ [] → (∀ p ∈ es, ErrOk p.2) → ErrOk (.indexed exp act es)
  | labeled (exp : String) (act : JsValue) (es : List (String × DecodeError)) :
      es ≠ [] → (∀ p ∈ es, ErrOk p.2) → ErrOk (.labeled exp act es)
  | and (exp : String) (act : JsValue) (es : List DecodeError) :
      es ≠ [] → (∀ e ∈ es, ErrOk e) → ErrOk (.and exp act es)
  | or (exp : String) (act : JsValue) (es : List DecodeError) :
      es ≠ [] → (∀ e ∈ es, ErrOk e) → ErrOk (.or exp act es)

/-- The decoders the engine can construct: closed under every primitive and
combinator whose errors the engine itself builds.  (`mapLeft` is omitted: it
applies a caller-supplied error transformer, so the errors of a `mapLeft`
decoder are whatever the caller constructs, and `ap` is omitted because its
first argument decodes to a function, which has no JS-value embedding; the
error of `ap` is in any case one of its children's errors unchanged.) -/
inductive Built : Decoder → Prop where
  | fromRefinement (p : JsValue → Bool) (expected : String) :
      Built (fromRefinement p expected)
  | never : Built never
  | refinement (d : Decoder) (p : JsValue → Bool) (expected : String) :
      Built d → Built (refinement d p expected)
  | withExpected (d : Decoder) (expected : String) :
      Built d → Built (withExpected d expected)
  | type (ds : List (String × Decoder)) :
      (∀ p ∈ ds, Built p.2) → Built (type ds)
  | partialD (ds : List (String × Decoder)) :
      (∀ p ∈ ds, Built p.2) → Built (partialD ds)
  | record (d : Decoder) : Built d → Built (record d)
  | array (d : Decoder) : Built d → Built (array d)
  | tuple (ds : List Decoder) : (∀ d ∈ ds, Built d) → Built (tuple ds)
  | intersection (ds : List Decoder) :
      (∀ d ∈ ds, Built d) → Built (intersection ds)
  | sum (tag : String) (defs : List (String × Decoder)) :
      (∀ p ∈ defs, Built p.2) → Built (sum tag defs)
  | union (ds : List Decoder) : (∀ d ∈ ds, Built d) → Built (union ds)
  | lazy (f : Unit → Decoder) : Built (f ()) → Built (lazy f)
  | mapD (d : Decoder) (f : JsValue → JsValue) : Built d → Built (mapD d f)
  | of (a : JsValue) : Built (of a)
  | alt (fx : Decoder) (fy : Unit → Decoder) :
      Built fx → Built (fy ()) → Built (alt fx fy)

/-- Whether a decoding result is a failure. -/
def isErr (r : Except DecodeError JsValue) : Bool :=
  match r with
  | .error _ => true
  | .ok _ => false

/-- Specification-side view of the failures of `type`: the declared fields,
in declaration order, whose decoder rejects the value read at their key,
paired with the error it produced. -/
def typeFailures (ds : List (String × Decoder)) (r : List (String × JsValue)) :
    List (String × DecodeError) :=
  ds.filterMap (fun p =>
    match p.2.decode (objGet r p.1) with
    | .error e => some (p.1, e)
    | .ok _ => none)

/-- Specification-side view of the successes of `type`. -/
def typeOks (ds : List (String × Decoder)) (r : List (String × JsValue)) :
    List (String × JsValue) :=
  ds.filterMap (fun p =>
    match p.2.decode (objGet r p.1) with
    | .error _ => none
    | .ok v => some (p.1, v))

/-- Whether a declared field of the source combinator `partial` participates:
its value reads as something other than `undefined`. -/
def presentIn (r : List (String × JsValue)) (k : String) : Bool :=
  match objGet r k with
  | .undefined => false
  | _ => true

/-- Specification-side failures of the source combinator `partial`: declared
fields that are present and rejected. -/
def partialFailures (ds : List (String × Decoder)) (r : List (String × JsValue)) :
    List (String × DecodeError) :=
  ds.filterMap (fun p =>
    match objGet r p.1 with
    | .undefined => none
    | v =>
      match p.2.decode v with
      | .error e => some (p.1, e)
      | .ok _ => none)

/-- Specification-side failures of `record`: the input's own entries whose
value the element decoder rejects, in enumeration order. -/
def recordFailures (d : Decoder) (r : List (String × JsValue)) :
    List (String × DecodeError) :=
  r.filterMap (fun p =>
    match d.decode p.2 with
    | .error e => some (p.1, e)
    | .ok _ => none)

/-- Specification-side failures of `array`: the rejected positions in
position order, from `List.enum`. -/
def arrayFailures (d : Decoder) (us : List JsValue) :
    List (Nat × DecodeError) :=
  us.enum.filterMap (fun p =>
    match d.decode p.2 with
    | .error e => some (p.1, e)
    | .ok _ => none)

/-- Specification-side failures of `tuple`: member `i` is applied to `us[i]`
(which reads `undefined` past the end of the input). -/
def tupleFailures (ds : List Decoder) (us : List JsValue) :
    List (Nat × DecodeError) :=
  ds.enum.filterMap (fun p =>
    match p.2.decode (us.getD p.1 .undefined) with
    | .error e => some (p.1, e)
    | .ok _ => none)

/-- Specification-side successes of `tuple`. -/
def tupleOks (ds : List Decoder) (us : List JsValue) : List JsValue :=
  ds.enum.filterMap (fun p =>
    match p.2.decode (us.getD p.1 .undefined) with
    | .error _ => none
    | .ok v => some v)

/-- Specification-side errors of `union` and `intersection`: every member's
error on `u`, in declared member order (members that succeed contribute
nothing). -/
def memberErrs (ds : List Decoder) (u : JsValue) : List DecodeError :=
  ds.filterMap (fun d =>
    match d.decode u with
    | .error e => some e
    | .ok _ => none)

/-- Specification-side successes of `intersection`: every member's success
value on `u`, in declared member order. -/
def memberOks (ds : List Decoder) (u : JsValue) : List JsValue :=
  ds.filterMap (fun d =>
    match d.decode u with
    | .error _ => none
    | .ok v => some v)

/-- Specification-side view of the intersection merge with a given starting
value for the key: objects assigned left to right, the rightmost object that
carries the key wins, the start value when none does. -/
def lastWinsAux (init : Option JsValue) (vs : List JsValue) (k : String) :
    Option JsValue :=
  vs.foldl
    (fun acc v =>
      match v with
      | .object fs =>
        match fieldsGet fs k with
        | some w => some w
        | none => acc
      | _ => acc)
    init

/-- Specification-side view of the intersection merge: the value a key ends
up with when objects are assigned left to right — the rightmost object that
carries the key wins. -/
def lastWins (vs : List JsValue) (k : String) : Option JsValue :=
  lastWinsAux none vs k

/-- A JS-representable object value: its keys are pairwise distinct (a real
JS object cannot carry a duplicated key). -/
def objKeysNodup : JsValue → Prop
  | .object fs => (fs.map Prod.fst).Nodup
  | _ => True

/-- The rational one half, a concrete non-integer JS number. -/
def oneHalf : ℚ := ⟨1, 2, by decide, by decide⟩

mutual

/-- Every error node occurring in an error tree (the tree itself included):
an error `e0` is surfaced by a failure carrying error `e` exactly when
`e0 ∈ errSubterms e`. -/
def errSubterms : DecodeError → List DecodeError
  | .leaf exp act => [.leaf exp act]
  | .indexed exp act es => .indexed exp act es :: errSubtermsIdx es
  | .labeled exp act es => .labeled exp act es :: errSubtermsKey es
  | .and exp act es => .and exp act es :: errSubtermsList es
  | .or exp act es => .or exp act es :: errSubtermsList es

/-- Subterms of the children of an `Indexed` node. -/
def errSubtermsIdx : List (Nat × DecodeError) → List DecodeError
  | [] => []
  | (_, e) :: rest => errSubterms e ++ errSubtermsIdx rest

/-- Subterms of the children of a `Labeled` node. -/
def errSubtermsKey : List (String × DecodeError) → List DecodeError
  | [] => []
  | (_, e) :: rest => errSubterms e ++ errSubtermsKey rest

/-- Subterms of the children of an `And`/`Or` node. -/
def errSubtermsList : List DecodeError → List DecodeError
  | [] => []
  | e :: rest => errSubterms e ++ errSubtermsList rest

end

/-! ### Supporting lemmas -/

lemma length_filterMap_eq_countP {α β : Type} (f : α → Option β) (p : α → Bool)
    (h : ∀ a, (f a).isSome = p a) :
    ∀ l : List α, (l.filterMap f).length = l.countP p := by
  intro l
  induction l with
  | nil => simp
  | cons a l ih =>
    rw [List.filterMap_cons, List.countP_cons]
    cases hfa : f a with
    | none =>
      have hpa := h a
      rw [hfa] at hpa
      simp [ih, ← hpa]
    | some b =>
      have hpa := h a
      rw [hfa] at hpa
      simp [ih, ← hpa]

lemma memberErrs_nil (u : JsValue) : memberErrs [] u = [] := rfl

lemma memberErrs_cons (d : Decoder) (ds : List Decoder) (u : JsValue) :
    memberErrs (d :: ds) u =
      (match d.decode u with
       | .error e => e :: memberErrs ds u
       | .ok _ => memberErrs ds u) := by
  cases hd : d.decode u <;> simp [memberErrs, List.filterMap_cons, hd]

lemma memberErrs_length (ds : List Decoder) (u : JsValue) :
    (memberErrs ds u).length = ds.countP (fun d => isErr (d.decode u)) := by
  refine length_filterMap_eq_countP _ _ (fun d => ?_) ds
  cases hd : d.decode u <;> simp [isErr, hd]

lemma unionLoop_allFail (u : JsValue) :
    ∀ ds : List Decoder, (∀ d ∈ ds, isErr (d.decode u) = true) →
      unionLoop ds u = .error (memberErrs ds u) := by
  intro ds
  induction ds with
  | nil => intro _; rfl
  | cons d ds ih =>
    intro h
    have hd := h d (List.mem_cons_self d ds)
    cases hde : d.decode u with
    | ok v => rw [hde] at hd; simp [isErr] at hd
    | error e =>
      have hrest := ih (fun d' hd' => h d' (List.mem_cons_of_mem d hd'))
      simp [unionLoop, hde, hrest, memberErrs_cons]

lemma unionLoop_firstOk (u v : JsValue) :
    ∀ (pre : List Decoder) (d : Decoder) (post : List Decoder),
      (∀ d' ∈ pre, isErr (d'.decode u) = true) → d.decode u = .ok v →
      unionLoop (pre ++ d :: post) u = .ok v := by
  intro pre
  induction pre with
  | nil => intro d post _ hd; simp [unionLoop, hd]
  | cons p pre ih =>
    intro d post h hd
    have hp := h p (List.mem_cons_self p pre)
    cases hpe : p.decode u with
    | ok w => rw [hpe] at hp; simp [isErr] at hp
    | error e =>
      have := ih d post (fun d' hd' => h d' (List.mem_cons_of_mem p hd')) hd
      simp [unionLoop, hpe, this]

lemma union_decode_ne_nil (ds : List Decoder) (u : JsValue) (h : ds ≠ []) :
    (union ds).decode u =
      (match unionLoop ds u with
       | .ok v => .ok v
       | .error es => .error (.or "union" u es)) := by
  obtain ⟨d, ds', rfl⟩ := List.exists_cons_of_ne_nil h
  rfl

lemma typeLoop_snd (r : List (String × JsValue)) :
    ∀ ds : List (String × Decoder), (typeLoop ds r).2 = typeFailures ds r := by
  intro ds
  induction ds with
  | nil => rfl
  | cons p ds ih =>
    obtain ⟨k, d⟩ := p
    cases hd : d.decode (objGet r k) <;>
      simp [typeLoop, typeFailures, List.filterMap_cons, hd] <;>
      simpa [typeFailures] using ih

lemma partialLoop_snd (r : List (String × JsValue)) :
    ∀ ds : List (String × Decoder), (partialLoop ds r).2 = partialFailures ds r := by
  intro ds
  induction ds with
  | nil => rfl
  | cons p ds ih =>
    obtain ⟨k, d⟩ := p
    cases hv : objGet r k <;>
      first
      | simpa [partialLoop, partialFailures, List.filterMap_cons, hv] using ih
      | (cases hd : d.decode (objGet r k) <;>
          simp [partialLoop, partialFailures, List.filterMap_cons, hv, hv ▸ hd] <;>
          simpa [partialFailures] using ih)

lemma recordLoop_snd (d : Decoder) :
    ∀ r : List (String × JsValue), (recordLoop d r).2 = recordFailures d r := by
  intro r
  induction r with
  | nil => rfl
  | cons p r ih =>
    obtain ⟨k, v⟩ := p
    cases hd : d.decode v <;>
      simp [recordLoop, recordFailures, List.filterMap_cons, hd] <;>
      simpa [recordFailures] using ih

lemma arrayLoop_snd (d : Decoder) :
    ∀ (us : List JsValue) (i : Nat),
      (arrayLoop d us i).2 =
        (us.enumFrom i).filterMap (fun p =>
          match d.decode p.2 with
          | .error e => some (p.1, e)
          | .ok _ => none) := by
  intro us
  induction us with
  | nil => intro i; rfl
  | cons v us ih =>
    intro i
    cases hd : d.decode v <;>
      simp [arrayLoop, List.enumFrom, List.filterMap_cons, hd, ih]

lemma tupleLoop_snd (us : List JsValue) :
    ∀ (ds : List Decoder) (i : Nat),
      (tupleLoop ds us i).2 =
        (ds.enumFrom i).filterMap (fun p =>
          match p.2.decode (us.getD p.1 .undefined) with
          | .error e => some (p.1, e)
          | .ok _ => none) := by
  intro ds
  induction ds with
  | nil => intro i; rfl
  | cons d ds ih =>
    intro i
    simp only [tupleLoop, List.enumFrom, List.filterMap_cons, ih]
    cases hd : d.decode (us.getD i .undefined) <;> simp only [hd]

lemma tupleLoop_fst (us : List JsValue) :
    ∀ (ds : List Decoder) (i : Nat),
      (tupleLoop ds us i).1 =
        (ds.enumFrom i).filterMap (fun p =>
          match p.2.decode (us.getD p.1 .undefined) with
          | .error _ => none
          | .ok v => some v) := by
  intro ds
  induction ds with
  | nil => intro i; rfl
  | cons d ds ih =>
    intro i
    simp only [tupleLoop, List.enumFrom, List.filterMap_cons, ih]
    cases hd : d.decode (us.getD i .undefined) <;> simp only [hd]

lemma countP_enumFrom {α : Type} (p : α → Bool) :
    ∀ (l : List α) (i : Nat),
      (l.enumFrom i).countP (fun q => p q.2) = l.countP p := by
  intro l
  induction l with
  | nil => intro i; rfl
  | cons a l ih => intro i; simp [List.enumFrom, List.countP_cons, ih]

lemma typeFailures_length (ds : List (String × Decoder)) (r : List (String × JsValue)) :
    (typeFailures ds r).length =
      ds.countP (fun p => isErr (p.2.decode (objGet r p.1))) :=
  length_filterMap_eq_countP _ _
    (fun p => by cases h : p.2.decode (objGet r p.1) <;> simp [isErr, h]) ds

lemma partialFailures_length (ds : List (String × Decoder)) (r : List (String × JsValue)) :
    (partialFailures ds r).length =
      ds.countP (fun p => presentIn r p.1 && isErr (p.2.decode (objGet r p.1))) :=
  length_filterMap_eq_countP _ _
    (fun p => by
      cases hv : objGet r p.1 <;> simp only [presentIn, hv] <;>
        first
        | (simp; done)
        | (split <;> simp_all [isErr])) ds

lemma recordFailures_length (d : Decoder) (r : List (String × JsValue)) :
    (recordFailures d r).length = r.countP (fun p => isErr (d.decode p.2)) :=
  length_filterMap_eq_countP _ _
    (fun p => by cases h : d.decode p.2 <;> simp [isErr, h]) r

lemma arrayFailures_length (d : Decoder) (us : List JsValue) :
    (arrayFailures d us).length = us.countP (fun v => isErr (d.decode v)) := by
  have h1 := length_filterMap_eq_countP
    (fun p : Nat × JsValue =>
      match d.decode p.2 with
      | .error e => some (p.1, e)
      | .ok _ => none)
    (fun p => isErr (d.decode p.2))
    (fun p => by cases h : d.decode p.2 <;> simp [isErr, h]) us.enum
  rw [arrayFailures, h1, List.enum]
  exact countP_enumFrom (fun v => isErr (d.decode v)) us 0

lemma tupleFailures_length (ds : List Decoder) (us : List JsValue) :
    (tupleFailures ds us).length =
      ds.enum.countP (fun p => isErr (p.2.decode (us.getD p.1 .undefined))) :=
  length_filterMap_eq_countP _ _
    (fun p => by cases h : p.2.decode (us.getD p.1 .undefined) <;> simp [isErr, h]) ds.enum

lemma intersectionLoop_eq (u : JsValue) :
    ∀ ds : List Decoder, intersectionLoop ds u = (memberOks ds u, memberErrs ds u) := by
  intro ds
  induction ds with
  | nil => rfl
  | cons d ds ih =>
    simp only [intersectionLoop, ih]
    cases hd : d.decode u <;>
      simp [memberOks, memberErrs, List.filterMap_cons, hd]

lemma fieldsGet_setField (fs : List (String × JsValue)) (k : String) (v : JsValue) :
    ∀ k', fieldsGet (setField fs k v) k' =
      if k' = k then some v else fieldsGet fs k' := by
  induction fs with
  | nil =>
    intro k'
    by_cases h : k' = k
    · subst h
      simp [fieldsGet, setField, List.find?]
    · rw [if_neg h]
      have hb : (k == k') = false := beq_eq_false_iff_ne.mpr (Ne.symm h)
      simp [fieldsGet, setField, List.find?, hb]
  | cons p fs ih =>
    intro k'
    by_cases h1 : p.1 = k
    · have hsf : setField (p :: fs) k v = (k, v) :: fs := by
        simp [setField, h1]
      rw [hsf]
      by_cases h2 : k' = k
      · subst h2
        simp [fieldsGet, List.find?]
      · rw [if_neg h2]
        have hb : (k == k') = false := beq_eq_false_iff_ne.mpr (Ne.symm h2)
        have hb2 : (p.1 == k') = false := by rw [h1]; exact hb
        simp [fieldsGet, List.find?, hb, hb2]
    · have hsf : setField (p :: fs) k v = p :: setField fs k v := by
        simp [setField, h1]
      rw [hsf]
      by_cases h2 : p.1 = k'
      · have hk : ¬(k' = k) := fun hh => h1 (by rw [h2, hh])
        rw [if_neg hk]
        have hb : (p.1 == k') = true := beq_iff_eq.mpr h2
        simp [fieldsGet, List.find?, hb]
      · have hb : (p.1 == k') = false := beq_eq_false_iff_ne.mpr h2
        have hskip : fieldsGet (p :: setField fs k v) k' = fieldsGet (setField fs k v) k' := by
          simp [fieldsGet, List.find?, hb]
        have hskip2 : fieldsGet (p :: fs) k' = fieldsGet fs k' := by
          simp [fieldsGet, List.find?, hb]
        rw [hskip, ih k', hskip2]

lemma fieldsGet_eq_none (fs : List (String × JsValue)) (k : String)
    (h : k ∉ fs.map Prod.fst) : fieldsGet fs k = none := by
  have hfind : List.find? (fun p => p.1 == k) fs = none :=
    List.find?_eq_none.mpr
      (fun p hp hbeq => h (List.mem_map.mpr ⟨p, hp, by simpa using hbeq⟩))
  simp [fieldsGet, hfind]

lemma fieldsGet_assignFields (o : List (String × JsValue)) :
    ∀ (acc : List (String × JsValue)) (k : String), (o.map Prod.fst).Nodup →
      fieldsGet (o.foldl (fun a p => setField a p.1 p.2) acc) k =
        (match fieldsGet o k with
         | some w => some w
         | none => fieldsGet acc k) := by
  induction o with
  | nil => intro acc k _; rfl
  | cons p o ih =>
    intro acc k hnd
    obtain ⟨k1, v1⟩ := p
    rw [List.map_cons, List.nodup_cons] at hnd
    rw [List.foldl_cons, ih _ k hnd.2]
    by_cases hk : k = k1
    · subst hk
      rw [fieldsGet_eq_none o k hnd.1]
      have h2 : fieldsGet ((k, v1) :: o) k = some v1 := by
        simp [fieldsGet, List.find?]
      rw [h2]
      rw [fieldsGet_setField]
      simp
    · have hhead : fieldsGet ((k1, v1) :: o) k = fieldsGet o k := by
        simp [fieldsGet, List.find?, (by simpa using fun hh => hk hh.symm :
          (k1 == k) = false)]
      rw [hhead]
      cases hfo : fieldsGet o k with
      | some w => rfl
      | none => simp [fieldsGet_setField, hk]

lemma fieldsGet_foldl_assignObj (vs : List JsValue) :
    ∀ acc : List (String × JsValue),
      (∀ v ∈ vs, isRecordV v = true) → (∀ v ∈ vs, objKeysNodup v) →
      ∀ k, fieldsGet (vs.foldl assignObj acc) k = lastWinsAux (fieldsGet acc k) vs k := by
  induction vs with
  | nil => intro acc _ _ k; rfl
  | cons v vs ih =>
    intro acc hrec hnd k
    cases v with
    | object fs =>
      rw [List.foldl_cons,
        ih _ (fun w hw => hrec w (List.mem_cons_of_mem _ hw))
          (fun w hw => hnd w (List.mem_cons_of_mem _ hw)) k]
      have hfs : (fs.map Prod.fst).Nodup := hnd _ (List.mem_cons_self _ _)
      show lastWinsAux (fieldsGet (assignObj acc (.object fs)) k) vs k =
        lastWinsAux _ (.object fs :: vs) k
      rw [show assignObj acc (.object fs) =
            fs.foldl (fun a p => setField a p.1 p.2) acc from rfl,
        fieldsGet_assignFields fs acc k hfs]
      rfl
    | undefined => exact absurd (hrec _ (List.mem_cons_self _ _)) (by simp [isRecordV])
    | null => exact absurd (hrec _ (List.mem_cons_self _ _)) (by simp [isRecordV])
    | boolean b => exact absurd (hrec _ (List.mem_cons_self _ _)) (by simp [isRecordV])
    | number q => exact absurd (hrec _ (List.mem_cons_self _ _)) (by simp [isRecordV])
    | string s => exact absurd (hrec _ (List.mem_cons_self _ _)) (by simp [isRecordV])
    | array xs => exact absurd (hrec _ (List.mem_cons_self _ _)) (by simp [isRecordV])

lemma replicate_getD :
    ∀ (m j : Nat), (List.replicate m JsValue.undefined).getD j .undefined = .undefined := by
  intro m
  induction m with
  | zero => intro j; rfl
  | succ m ih =>
    intro j
    cases j with
    | zero => rfl
    | succ j => simp [List.replicate, ih j]

lemma getD_append_replicate (us : List JsValue) (m : Nat) :
    ∀ i : Nat, (us ++ List.replicate m JsValue.undefined).getD i .undefined =
      us.getD i .undefined := by
  intro i
  by_cases h : i < us.length
  · rw [List.getD_append _ _ _ _ h]
  · rw [List.getD_append_right _ _ _ _ (le_of_not_lt h), replicate_getD,
      List.getD_eq_default _ _ (le_of_not_lt h)]

lemma toTreeIdx_eq : ∀ es : List (Nat × DecodeError),
    toTreeIdx es =
      es.map (fun p => prefixRoot ("(" ++ toString p.1 ++ ") ") (toTree p.2)) := by
  intro es
  induction es with
  | nil => rfl
  | cons p es ih => simp [toTreeIdx, ih]

lemma toTreeKey_eq : ∀ es : List (String × DecodeError),
    toTreeKey es =
      es.map (fun p => prefixRoot ("(" ++ jsonQuote p.1 ++ ") ") (toTree p.2)) := by
  intro es
  induction es with
  | nil => rfl
  | cons p es ih => simp [toTreeKey, ih]

lemma toTreeList_eq : ∀ es : List DecodeError, toTreeList es = es.map toTree := by
  intro es
  induction es with
  | nil => rfl
  | cons e es ih => simp [toTreeList, ih]

lemma errOk_setExpected (e : DecodeError) (exp : String) (h : ErrOk e) :
    ErrOk (setExpected e exp) := by
  cases h with
  | leaf exp' act => exact ErrOk.leaf exp act
  | indexed exp' act es hne hch => exact ErrOk.indexed exp act es hne hch
  | labeled exp' act es hne hch => exact ErrOk.labeled exp act es hne hch
  | and exp' act es hne hch => exact ErrOk.and exp act es hne hch
  | or exp' act es hne hch => exact ErrOk.or exp act es hne hch

lemma typeFailures_errOk (ds : List (String × Decoder)) (r : List (String × JsValue))
    (H : ∀ p ∈ ds, ∀ u e, p.2.decode u = .error e → ErrOk e) :
    ∀ q ∈ typeFailures ds r, ErrOk q.2 := by
  intro q hq
  rw [typeFailures] at hq
  obtain ⟨p, hp, hfp⟩ := List.mem_filterMap.mp hq
  split at hfp
  · rename_i e heq
    injection hfp with hq2
    exact hq2 ▸ (show ErrOk ((p.1, e) : String × DecodeError).2 from H p hp _ e heq)
  · exact absurd hfp (by simp)

lemma partialFailures_errOk (ds : List (String × Decoder)) (r : List (String × JsValue))
    (H : ∀ p ∈ ds, ∀ u e, p.2.decode u = .error e → ErrOk e) :
    ∀ q ∈ partialFailures ds r, ErrOk q.2 := by
  intro q hq
  rw [partialFailures] at hq
  obtain ⟨p, hp, hfp⟩ := List.mem_filterMap.mp hq
  cases hv : objGet r p.1 <;> rw [hv] at hfp
  case undefined => exact absurd hfp (by simp)
  all_goals
    (simp only at hfp
     split at hfp
     · rename_i e heq
       injection hfp with hq2
       exact hq2 ▸ (show ErrOk ((p.1, e) : String × DecodeError).2 from H p hp _ e heq)
     · exact absurd hfp (by simp))

lemma recordFailures_errOk (d : Decoder) (r : List (String × JsValue))
    (H : ∀ u e, d.decode u = .error e → ErrOk e) :
    ∀ q ∈ recordFailures d r, ErrOk q.2 := by
  intro q hq
  rw [recordFailures] at hq
  obtain ⟨p, hp, hfp⟩ := List.mem_filterMap.mp hq
  split at hfp
  · rename_i e heq
    injection hfp with hq2
    exact hq2 ▸ (show ErrOk ((p.1, e) : String × DecodeError).2 from H _ e heq)
  · exact absurd hfp (by simp)

lemma arrayFailures_errOk (d : Decoder) (us : List JsValue)
    (H : ∀ u e, d.decode u = .error e → ErrOk e) :
    ∀ q ∈ arrayFailures d us, ErrOk q.2 := by
  intro q hq
  rw [arrayFailures] at hq
  obtain ⟨p, hp, hfp⟩ := List.mem_filterMap.mp hq
  split at hfp
  · rename_i e heq
    injection hfp with hq2
    exact hq2 ▸ (show ErrOk ((p.1, e) : Nat × DecodeError).2 from H _ e heq)
  · exact absurd hfp (by simp)

lemma tupleFailures_errOk (ds : List Decoder) (us : List JsValue)
    (H : ∀ d ∈ ds, ∀ u e, d.decode u = .error e → ErrOk e) :
    ∀ q ∈ tupleFailures ds us, ErrOk q.2 := by
  intro q hq
  rw [tupleFailures] at hq
  obtain ⟨p, hp, hfp⟩ := List.mem_filterMap.mp hq
  have hpd : p.2 ∈ ds := List.snd_mem_of_mem_enum hp
  split at hfp
  · rename_i e heq
    injection hfp with hq2
    exact hq2 ▸ (show ErrOk ((p.1, e) : Nat × DecodeError).2 from H p.2 hpd _ e heq)
  · exact absurd hfp (by simp)

lemma memberErrs_errOk (ds : List Decoder) (u : JsValue)
    (H : ∀ d ∈ ds, ∀ u e, d.decode u = .error e → ErrOk e) :
    ∀ e ∈ memberErrs ds u, ErrOk e := by
  intro e he
  rw [memberErrs] at he
  obtain ⟨d, hd, hfd⟩ := List.mem_filterMap.mp he
  split at hfd
  · rename_i e' heq
    injection hfd with hq2
    exact hq2 ▸ H d hd _ e' heq
  · exact absurd hfd (by simp)

lemma unionLoop_error (u : JsValue) :
    ∀ (ds : List Decoder) (es : List DecodeError), unionLoop ds u = .error es →
      es = memberErrs ds u ∧ es.length = ds.length := by
  intro ds
  induction ds with
  | nil =>
    intro es h
    injection h with h2
    exact ⟨h2.symm ▸ rfl, h2.symm ▸ rfl⟩
  | cons d ds ih =>
    intro es h
    cases hd : d.decode u with
    | ok v => rw [unionLoop, hd] at h; exact absurd h (by simp)
    | error e =>
      rw [unionLoop, hd] at h
      cases hrest : unionLoop ds u with
      | ok v => rw [hrest] at h; exact absurd h (by simp)
      | error es' =>
        rw [hrest] at h
        injection h with h2
        obtain ⟨hes, hlen⟩ := ih es' hrest
        subst h2
        constructor
        · rw [memberErrs_cons, hd, hes]
        · simp [hlen]

lemma lookupDec_mem (defs : List (String × Decoder)) (s : String) (d : Decoder)
    (h : lookupDec defs s = some d) : ∃ k, (k, d) ∈ defs := by
  rw [lookupDec] at h
  obtain ⟨p, hfind, hpd⟩ := Option.map_eq_some'.mp h
  exact ⟨p.1, by
    have hmem := List.mem_of_find?_eq_some hfind
    rw [show (p.1, d) = p from by rw [← hpd]] at *
    exact hmem⟩

lemma fromRefinement_error_inv (p : JsValue → Bool) (exp : String) :
    ∀ u e, (fromRefinement p exp).decode u = .error e → ErrOk e := by
  intro u e h
  cases hp : p u with
  | true => simp [fromRefinement, hp] at h
  | false =>
    simp [fromRefinement, hp] at h
    exact h ▸ ErrOk.leaf exp u

lemma never_error_inv : ∀ u e, never.decode u = .error e → ErrOk e := by
  intro u e h
  exact (Except.error.inj h) ▸ ErrOk.leaf "never" u

lemma refinement_error_inv (d : Decoder) (p : JsValue → Bool) (exp : String)
    (H : ∀ u e, d.decode u = .error e → ErrOk e) :
    ∀ u e, (refinement d p exp).decode u = .error e → ErrOk e := by
  intro u e h
  simp only [refinement] at h
  cases hd : d.decode u with
  | error e' =>
    rw [hd] at h
    simp only at h
    injection h with h2
    exact h2 ▸ H u e' hd
  | ok b =>
    rw [hd] at h
    simp only at h
    cases hp : p b with
    | true => rw [hp] at h; simp at h
    | false =>
      rw [hp] at h
      simp at h
      exact h ▸ ErrOk.leaf exp b

lemma withExpected_error_inv (d : Decoder) (exp : String)
    (H : ∀ u e, d.decode u = .error e → ErrOk e) :
    ∀ u e, (withExpected d exp).decode u = .error e → ErrOk e := by
  intro u e h
  simp only [withExpected, mapLeftD] at h
  cases hd : d.decode u with
  | ok v => rw [hd] at h; simp at h
  | error e' =>
    rw [hd] at h
    simp only at h
    injection h with h2
    exact h2 ▸ errOk_setExpected e' exp (H u e' hd)

lemma type_error_inv (ds : List (String × Decoder))
    (H : ∀ p ∈ ds, ∀ u e, p.2.decode u = .error e → ErrOk e) :
    ∀ u e, (type ds).decode u = .error e → ErrOk e := by
  intro u e h
  cases u with
  | object r =>
    simp only [type] at h
    by_cases hemp : (typeLoop ds r).2.isEmpty = true
    · rw [if_pos hemp] at h; exact absurd h (by simp)
    · rw [if_neg hemp] at h
      injection h with h2
      have hne : (typeLoop ds r).2 ≠ [] := by
        intro hnil; rw [hnil] at hemp; exact hemp rfl
      have hch : ∀ q ∈ (typeLoop ds r).2, ErrOk q.2 := by
        rw [typeLoop_snd]
        exact typeFailures_errOk ds r H
      exact h2 ▸ ErrOk.labeled "type" (.object r) (typeLoop ds r).2 hne hch
  | undefined => exact (Except.error.inj h) ▸ ErrOk.leaf _ _
  | null => exact (Except.error.inj h) ▸ ErrOk.leaf _ _
  | boolean b => exact (Except.error.inj h) ▸ ErrOk.leaf _ _
  | number q => exact (Except.error.inj h) ▸ ErrOk.leaf _ _
  | string s => exact (Except.error.inj h) ▸ ErrOk.leaf _ _
  | array xs => exact (Except.error.inj h) ▸ ErrOk.leaf _ _

lemma partialD_error_inv (ds : List (String × Decoder))
    (H : ∀ p ∈ ds, ∀ u e, p.2.decode u = .error e → ErrOk e) :
    ∀ u e, (partialD ds).decode u = .error e → ErrOk e := by
  intro u e h
  cases u with
  | object r =>
    simp only [partialD] at h
    by_cases hemp : (partialLoop ds r).2.isEmpty = true
    · rw [if_pos hemp] at h; exact absurd h (by simp)
    · rw [if_neg hemp] at h
      injection h with h2
      have hne : (partialLoop ds r).2 ≠ [] := by
        intro hnil; rw [hnil] at hemp; exact hemp rfl
      have hch : ∀ q ∈ (partialLoop ds r).2, ErrOk q.2 := by
        rw [partialLoop_snd]
        exact partialFailures_errOk ds r H
      exact h2 ▸ ErrOk.labeled "partial" (.object r) (partialLoop ds r).2 hne hch
  | undefined => exact (Except.error.inj h) ▸ ErrOk.leaf _ _
  | null => exact (Except.error.inj h) ▸ ErrOk.leaf _ _
  | boolean b => exact (Except.error.inj h) ▸ ErrOk.leaf _ _
  | number q => exact (Except.error.inj h) ▸ ErrOk.leaf _ _
  | string s => exact (Except.error.inj h) ▸ ErrOk.leaf _ _
  | array xs => exact (Except.error.inj h) ▸ ErrOk.leaf _ _

lemma record_error_inv (d : Decoder)
    (H : ∀ u e, d.decode u = .error e → ErrOk e) :
    ∀ u e, (record d).decode u = .error e → ErrOk e := by
  intro u e h
  cases u with
  | object r =>
    simp only [record] at h
    by_cases hemp : (recordLoop d r).2.isEmpty = true
    · rw [if_pos hemp] at h; exact absurd h (by simp)
    · rw [if_neg hemp] at h
      injection h with h2
      have hne : (recordLoop d r).2 ≠ [] := by
        intro hnil; rw [hnil] at hemp; exact hemp rfl
      have hch : ∀ q ∈ (recordLoop d r).2, ErrOk q.2 := by
        rw [recordLoop_snd]
        exact recordFailures_errOk d r H
      exact h2 ▸ ErrOk.labeled "record" (.object r) (recordLoop d r).2 hne hch
  | undefined => exact (Except.error.inj h) ▸ ErrOk.leaf _ _
  | null => exact (Except.error.inj h) ▸ ErrOk.leaf _ _
  | boolean b => exact (Except.error.inj h) ▸ ErrOk.leaf _ _
  | number q => exact (Except.error.inj h) ▸ ErrOk.leaf _ _
  | string s => exact (Except.error.inj h) ▸ ErrOk.leaf _ _
  | array xs => exact (Except.error.inj h) ▸ ErrOk.leaf _ _

lemma array_error_inv (d : Decoder)
    (H : ∀ u e, d.decode u = .error e → ErrOk e) :
    ∀ u e, (array d).decode u = .error e → ErrOk e := by
  intro u e h
  cases u with
  | array us =>
    simp only [array] at h
    by_cases hemp : (arrayLoop d us 0).2.isEmpty = true
    · rw [if_pos hemp] at h; exact absurd h (by simp)
    · rw [if_neg hemp] at h
      injection h with h2
      have hne : (arrayLoop d us 0).2 ≠ [] := by
        intro hnil; rw [hnil] at hemp; exact hemp rfl
      have hch : ∀ q ∈ (arrayLoop d us 0).2, ErrOk q.2 := by
        rw [arrayLoop_snd]
        exact arrayFailures_errOk d us H
      exact h2 ▸ ErrOk.indexed "array" (.array us) (arrayLoop d us 0).2 hne hch
  | undefined => exact (Except.error.inj h) ▸ ErrOk.leaf _ _
  | null => exact (Except.error.inj h) ▸ ErrOk.leaf _ _
  | boolean b => exact (Except.error.inj h) ▸ ErrOk.leaf _ _
  | number q => exact (Except.error.inj h) ▸ ErrOk.leaf _ _
  | string s => exact (Except.error.inj h) ▸ ErrOk.leaf _ _
  | object r => exact (Except.error.inj h) ▸ ErrOk.leaf _ _

lemma tuple_error_inv (ds : List Decoder)
    (H : ∀ d ∈ ds, ∀ u e, d.decode u = .error e → ErrOk e) :
    ∀ u e, (tuple ds).decode u = .error e → ErrOk e := by
  intro u e h
  cases u with
  | array us =>
    simp only [tuple] at h
    by_cases hemp : (tupleLoop ds us 0).2.isEmpty = true
    · rw [if_pos hemp] at h; exact absurd h (by simp)
    · rw [if_neg hemp] at h
      injection h with h2
      have hne : (tupleLoop ds us 0).2 ≠ [] := by
        intro hnil; rw [hnil] at hemp; exact hemp rfl
      have hch : ∀ q ∈ (tupleLoop ds us 0).2, ErrOk q.2 := by
        rw [tupleLoop_snd]
        exact tupleFailures_errOk ds us H
      exact h2 ▸ ErrOk.indexed "tuple" (.array us) (tupleLoop ds us 0).2 hne hch
  | undefined => exact (Except.error.inj h) ▸ ErrOk.leaf _ _
  | null => exact (Except.error.inj h) ▸ ErrOk.leaf _ _
  | boolean b => exact (Except.error.inj h) ▸ ErrOk.leaf _ _
  | number q => exact (Except.error.inj h) ▸ ErrOk.leaf _ _
  | string s => exact (Except.error.inj h) ▸ ErrOk.leaf _ _
  | object r => exact (Except.error.inj h) ▸ ErrOk.leaf _ _

lemma intersection_error_inv (ds : List Decoder)
    (H : ∀ d ∈ ds, ∀ u e, d.decode u = .error e → ErrOk e) :
    ∀ u e, (intersection ds).decode u = .error e → ErrOk e := by
  intro u e h
  simp only [intersection] at h
  by_cases hds : ds.isEmpty = true
  · rw [if_pos hds] at h; exact absurd h (by simp)
  · rw [if_neg hds] at h
    by_cases hemp : (intersectionLoop ds u).2.isEmpty = true
    · rw [if_pos hemp] at h; exact absurd h (by simp)
    · rw [if_neg hemp] at h
      injection h with h2
      have hne : (intersectionLoop ds u).2 ≠ [] := by
        intro hnil; rw [hnil] at hemp; exact hemp rfl
      have hsnd : (intersectionLoop ds u).2 = memberErrs ds u := by
        rw [intersectionLoop_eq]
      have hch : ∀ e' ∈ (intersectionLoop ds u).2, ErrOk e' := by
        rw [hsnd]
        exact memberErrs_errOk ds u H
      exact h2 ▸ ErrOk.and "intersection" u (intersectionLoop ds u).2 hne hch

lemma union_error_inv (ds : List Decoder)
    (H : ∀ d ∈ ds, ∀ u e, d.decode u = .error e → ErrOk e) :
    ∀ u e, (union ds).decode u = .error e → ErrOk e := by
  intro u e h
  cases ds with
  | nil => exact (Except.error.inj h) ▸ ErrOk.leaf "never" u
  | cons d ds' =>
    rw [union_decode_ne_nil _ _ (List.cons_ne_nil _ _)] at h
    cases hu : unionLoop (d :: ds') u with
    | ok v => rw [hu] at h; exact absurd h (by simp)
    | error es =>
      rw [hu] at h
      simp only at h
      injection h with h2
      obtain ⟨hes, hlen⟩ := unionLoop_error u (d :: ds') es hu
      have hne : es ≠ [] := by
        intro hnil; rw [hnil] at hlen; simp at hlen
      have hch : ∀ e' ∈ es, ErrOk e' := by
        rw [hes]
        exact memberErrs_errOk _ u H
      exact h2 ▸ ErrOk.or "union" u es hne hch

lemma sum_decode_object (tag : String) (p0 : String × Decoder)
    (defs' : List (String × Decoder)) (r : List (String × JsValue)) :
    (sum tag (p0 :: defs')).decode (.object r) =
      (match objGet r tag with
       | .string s =>
         match lookupDec (p0 :: defs') s with
         | some d =>
           match d.decode (.object r) with
           | .error e => .error e
           | .ok out => .ok (jsSet out tag (.string s))
         | none => .error (.labeled "sum" (.object r)
             [(tag, .leaf (sumExpected (p0 :: defs')) (objGet r tag))])
       | _ => .error (.labeled "sum" (.object r)
           [(tag, .leaf (sumExpected (p0 :: defs')) (objGet r tag))])) := rfl

lemma sum_error_inv (tag : String) (defs : List (String × Decoder))
    (H : ∀ p ∈ defs, ∀ u e, p.2.decode u = .error e → ErrOk e) :
    ∀ u e, (sum tag defs).decode u = .error e → ErrOk e := by
  intro u e h
  cases defs with
  | nil => exact (Except.error.inj h) ▸ ErrOk.leaf "never" u
  | cons p0 defs' =>
    cases u with
    | object r =>
      rw [sum_decode_object] at h
      cases hv : objGet r tag <;> rw [hv] at h
      case string s =>
        simp only at h
        cases hlk : lookupDec (p0 :: defs') s <;> rw [hlk] at h
        case some d =>
          simp only at h
          cases hd : d.decode (.object r) with
          | error e' =>
            rw [hd] at h
            simp only at h
            injection h with h2
            obtain ⟨k, hmem⟩ := lookupDec_mem _ s d hlk
            exact h2 ▸ H (k, d) hmem _ e' hd
          | ok out => rw [hd] at h; exact absurd h (by simp)
        case none =>
          simp only at h
          injection h with h2
          have hch : ∀ q ∈ [(tag, DecodeError.leaf (sumExpected (p0 :: defs'))
              (JsValue.string s))], ErrOk q.2 := by
            intro q hq
            rcases List.mem_singleton.mp hq with rfl
            exact ErrOk.leaf _ _
          exact h2 ▸ ErrOk.labeled "sum" (.object r) _ (List.cons_ne_nil _ _) hch
      all_goals
        (simp only at h
         injection h with h2
         refine h2 ▸ ErrOk.labeled "sum" (.object r) _ (List.cons_ne_nil _ _) ?_
         intro q hq
         rcases List.mem_singleton.mp hq with rfl
         exact ErrOk.leaf _ _)
    | undefined => exact (Except.error.inj h) ▸ ErrOk.leaf _ _
    | null => exact (Except.error.inj h) ▸ ErrOk.leaf _ _
    | boolean b => exact (Except.error.inj h) ▸ ErrOk.leaf _ _
    | number q => exact (Except.error.inj h) ▸ ErrOk.leaf _ _
    | string s => exact (Except.error.inj h) ▸ ErrOk.leaf _ _
    | array xs => exact (Except.error.inj h) ▸ ErrOk.leaf _ _

/-! ### The claims -/

/-- C1: `type`, `partial`, `record`, `array` and `tuple` decode every declared
member even after an earlier member has failed: on an input passing the record
(or array) precondition with at least one failing member, the result is one
Failure whose Labeled/Indexed child list is exactly the failing members — each
entry carrying the failing member's key or index — and its length equals the
number of failing members. -/
theorem claim1_exhaustive_accumulation :
    (∀ (ds : List (String × Decoder)) (r : List (String × JsValue)),
        typeFailures ds r ≠ [] →
        (type ds).decode (.object r) =
          .error (.labeled "type" (.object r) (typeFailures ds r)) ∧
        (typeFailures ds r).length =
          ds.countP (fun p => isErr (p.2.decode (objGet r p.1)))) ∧
    (∀ (ds : List (String × Decoder)) (r : List (String × JsValue)),
        partialFailures ds r ≠ [] →
        (partialD ds).decode (.object r) =
          .error (.labeled "partial" (.object r) (partialFailures ds r)) ∧
        (partialFailures ds r).length =
          ds.countP (fun p => presentIn r p.1 && isErr (p.2.decode (objGet r p.1)))) ∧
    (∀ (d : Decoder) (r : List (String × JsValue)),
        recordFailures d r ≠ [] →
        (record d).decode (.object r) =
          .error (.labeled "record" (.object r) (recordFailures d r)) ∧
        (recordFailures d r).length = r.countP (fun p => isErr (d.decode p.2))) ∧
    (∀ (d : Decoder) (us : List JsValue),
        arrayFailures d us ≠ [] →
        (array d).decode (.array us) =
          .error (.indexed "array" (.array us) (arrayFailures d us)) ∧
        (arrayFailures d us).length = us.countP (fun v => isErr (d.decode v))) ∧
    (∀ (ds : List Decoder) (us : List JsValue),
        tupleFailures ds us ≠ [] →
        (tuple ds).decode (.array us) =
          .error (.indexed "tuple" (.array us) (tupleFailures ds us)) ∧
        (tupleFailures ds us).length =
          ds.enum.countP (fun p => isErr (p.2.decode (us.getD p.1 .undefined)))) := by
  refine ⟨?_, ?_, ?_, ?_, ?_⟩
  · intro ds r h
    refine ⟨?_, typeFailures_length ds r⟩
    have hl := typeLoop_snd r ds
    have hne : (typeLoop ds r).2.isEmpty = false := by
      rw [hl]
      cases hfx : typeFailures ds r with
      | nil => exact absurd hfx h
      | cons a l => rfl
    simp [type, hl, hne, h]
  · intro ds r h
    refine ⟨?_, partialFailures_length ds r⟩
    have hl := partialLoop_snd r ds
    have hne : (partialLoop ds r).2.isEmpty = false := by
      rw [hl]
      cases hfx : partialFailures ds r with
      | nil => exact absurd hfx h
      | cons a l => rfl
    simp [partialD, hl, hne, h]
  · intro d r h
    refine ⟨?_, recordFailures_length d r⟩
    have hl := recordLoop_snd d r
    have hne : (recordLoop d r).2.isEmpty = false := by
      rw [hl]
      cases hfx : recordFailures d r with
      | nil => exact absurd hfx h
      | cons a l => rfl
    simp [record, hl, hne, h]
  · intro d us h
    refine ⟨?_, arrayFailures_length d us⟩
    have hl : (arrayLoop d us 0).2 = arrayFailures d us := by
      rw [arrayLoop_snd]; rfl
    have hne : (arrayLoop d us 0).2.isEmpty = false := by
      rw [hl]
      cases hfx : arrayFailures d us with
      | nil => exact absurd hfx h
      | cons a l => rfl
    simp [array, hl, hne, h]
  · intro ds us h
    refine ⟨?_, tupleFailures_length ds us⟩
    have hl : (tupleLoop ds us 0).2 = tupleFailures ds us := by
      rw [tupleLoop_snd]; rfl
    have hne : (tupleLoop ds us 0).2.isEmpty = false := by
      rw [hl]
      cases hfx : tupleFailures ds us with
      | nil => exact absurd hfx h
      | cons a l => rfl
    simp [tuple, hl, hne, h]

/-- Witness for C1: for each of the five combinators, a concrete input with
two invalid members among three (or two) yields a single Failure listing both
failing members by key or index. -/
theorem claim1_exhaustive_witness :
    (type [("a", string), ("b", number), ("c", boolean)]).decode
        (.object [("a", .number 1), ("b", .string "x"), ("c", .boolean true)]) =
      .error (.labeled "type"
        (.object [("a", .number 1), ("b", .string "x"), ("c", .boolean true)])
        [("a", .leaf "string" (.number 1)), ("b", .leaf "number" (.string "x"))]) ∧
    (partialD [("a", string), ("b", number)]).decode
        (.object [("a", .number 1), ("b", .boolean true)]) =
      .error (.labeled "partial" (.object [("a", .number 1), ("b", .boolean true)])
        [("a", .leaf "string" (.number 1)), ("b", .leaf "number" (.boolean true))]) ∧
    (record number).decode (.object [("a", .string "x"), ("b", .number 1), ("c", .null)]) =
      .error (.labeled "record"
        (.object [("a", .string "x"), ("b", .number 1), ("c", .null)])
        [("a", .leaf "number" (.string "x")), ("c", .leaf "number" .null)]) ∧
    (array string).decode (.array [.number 1, .string "ok", .null]) =
      .error (.indexed "array" (.array [.number 1, .string "ok", .null])
        [(0, .leaf "string" (.number 1)), (2, .leaf "string" .null)]) ∧
    (tuple [string, number]).decode (.array [.number 1, .string "x"]) =
      .error (.indexed "tuple" (.array [.number 1, .string "x"])
        [(0, .leaf "string" (.number 1)), (1, .leaf "number" (.string "x"))]) :=
  ⟨(claim1_exhaustive_accumulation.1
      [("a", string), ("b", number), ("c", boolean)]
      [("a", .number 1), ("b", .string "x"), ("c", .boolean true)]
      (List.cons_ne_nil _ _)).1,
   (claim1_exhaustive_accumulation.2.1
      [("a", string), ("b", number)]
      [("a", .number 1), ("b", .boolean true)]
      (List.cons_ne_nil _ _)).1,
   (claim1_exhaustive_accumulation.2.2.1 number
      [("a", .string "x"), ("b", .number 1), ("c", .null)]
      (List.cons_ne_nil _ _)).1,
   (claim1_exhaustive_accumulation.2.2.2.1 string
      [.number 1, .string "ok", .null]
      (List.cons_ne_nil _ _)).1,
   (claim1_exhaustive_accumulation.2.2.2.2 [string, number]
      [.number 1, .string "x"]
      (List.cons_ne_nil _ _)).1⟩

/-- C2: `union(d1..dn)` on input `u` returns the result of the first member
that succeeds — the members after it play no part in the result — and when
every member fails it fails with `Or("union", u, [e1..en])`, the members'
errors in declared order (one per member); a zero-member union fails with
`Leaf("never", u)` on every input. -/
theorem claim2_union_first_success_or_all_errors :
    (∀ (pre : List Decoder) (d : Decoder) (post post' : List Decoder) (u v : JsValue),
        (∀ d' ∈ pre, isErr (d'.decode u) = true) → d.decode u = .ok v →
        (union (pre ++ d :: post)).decode u = .ok v ∧
        (union (pre ++ d :: post)).decode u = (union (pre ++ d :: post')).decode u) ∧
    (∀ (ds : List Decoder) (u : JsValue), ds ≠ [] →
        (∀ d ∈ ds, isErr (d.decode u) = true) →
        (union ds).decode u = .error (.or "union" u (memberErrs ds u)) ∧
        (memberErrs ds u).length = ds.length) ∧
    (∀ u : JsValue, (union []).decode u = .error (.leaf "never" u)) := by
  refine ⟨?_, ?_, ?_⟩
  · intro pre d post post' u v hpre hd
    have h1 : (union (pre ++ d :: post)).decode u = .ok v := by
      rw [union_decode_ne_nil _ _ (by simp), unionLoop_firstOk u v pre d post hpre hd]
    have h2 : (union (pre ++ d :: post')).decode u = .ok v := by
      rw [union_decode_ne_nil _ _ (by simp), unionLoop_firstOk u v pre d post' hpre hd]
    exact ⟨h1, h1.trans h2.symm⟩
  · intro ds u hne hall
    constructor
    · rw [union_decode_ne_nil _ _ hne, unionLoop_allFail u ds hall]
    · rw [memberErrs_length]
      exact List.countP_eq_length.mpr hall
  · intro u; rfl

/-- Witness for C2 at concrete inputs: the first member `string` succeeds on
a string regardless of the later member, and on a boolean both members fail
and both errors are collected in order. -/
theorem claim2_union_witness :
    (union [string, number]).decode (.string "a") = .ok (.string "a") ∧
    (union [string, number]).decode (.boolean true) =
      .error (.or "union" (.boolean true)
        [.leaf "string" (.boolean true), .leaf "number" (.boolean true)]) := by
  constructor
  · exact (claim2_union_first_success_or_all_errors.1 [] string [number] []
      (.string "a") (.string "a") (by intro d hd; simp at hd) rfl).1
  · exact (claim2_union_first_success_or_all_errors.2.1 [string, number] (.boolean true)
      (by simp) (by intro d hd; simp only [List.mem_cons, List.not_mem_nil, or_false] at hd
                    rcases hd with rfl | rfl <;> rfl)).1

/-- C3: `intersection` runs every member on the same input `u`; any member
failure yields `Failure(And("intersection", u, <failed members' errors in
member order>))`; when all members succeed, the result is the shallow merge of
the success values when they are all plain records — later members' keys
winning on conflict, as the `lastWins` characterization states — and the last
member's value when some success value is not a plain record; a zero-member
intersection succeeds with `u` unchanged. -/
theorem claim3_intersection_merge_semantics :
    (∀ u : JsValue, (intersection []).decode u = .ok u) ∧
    (∀ (ds : List Decoder) (u : JsValue), memberErrs ds u ≠ [] →
        (intersection ds).decode u = .error (.and "intersection" u (memberErrs ds u))) ∧
    (∀ (ds : List Decoder) (u : JsValue), ds ≠ [] → memberErrs ds u = [] →
        (intersection ds).decode u = .ok (intersectionMerge (memberOks ds u))) ∧
    (∀ vs : List JsValue, (∃ v ∈ vs, isRecordV v = false) →
        intersectionMerge vs = vs.getLastD .undefined) ∧
    (∀ vs : List JsValue, (∀ v ∈ vs, isRecordV v = true) →
        (∀ v ∈ vs, objKeysNodup v) →
        intersectionMerge vs = .object (vs.foldl assignObj []) ∧
        ∀ k, fieldsGet (vs.foldl assignObj []) k = lastWins vs k) := by
  refine ⟨?_, ?_, ?_, ?_, ?_⟩
  · intro u; rfl
  · intro ds u h
    have hds : ds.isEmpty = false := by
      cases ds with
      | nil => exact absurd rfl h
      | cons d ds => rfl
    have hl := intersectionLoop_eq u ds
    have hne : (intersectionLoop ds u).2.isEmpty = false := by
      rw [hl]
      cases hfx : memberErrs ds u with
      | nil => exact absurd hfx h
      | cons a l => rfl
    simp [intersection, hds, hl, hne, h]
  · intro ds u hds h
    have hds' : ds.isEmpty = false := by
      cases ds with
      | nil => exact absurd rfl hds
      | cons d ds => rfl
    have hl := intersectionLoop_eq u ds
    simp [intersection, hds', hl, h]
  · intro vs ⟨v, hv, hrec⟩
    have hany : vs.any (fun a => !isRecordV a) = true :=
      List.any_eq_true.mpr ⟨v, hv, by simp [hrec]⟩
    simp [intersectionMerge, hany]
  · intro vs hrec hnd
    have hany : vs.any (fun a => !isRecordV a) = false := by
      rw [List.any_eq_false]
      intro v hv
      simp [hrec v hv]
    refine ⟨by simp [intersectionMerge, hany], fun k => ?_⟩
    have := fieldsGet_foldl_assignObj vs [] hrec hnd k
    simpa [lastWins, fieldsGet] using this

/-- Witness for C3 at concrete inputs: a failing member produces an `And`
with every failing member's error; an all-record success merges with the
later member winning on the shared key; a non-record success value makes the
last member's value the result; the empty intersection is the identity. -/
theorem claim3_intersection_witness :
    (intersection []).decode (.number 1) = .ok (.number 1) ∧
    (intersection [string, number]).decode (.boolean false) =
      .error (.and "intersection" (.boolean false)
        [.leaf "string" (.boolean false), .leaf "number" (.boolean false)]) ∧
    (intersection [UnknownRecord, UnknownRecord]).decode (.object [("a", .number 1)]) =
      .ok (.object [("a", .number 1)]) ∧
    intersectionMerge [.object [], .number 7] = .number 7 ∧
    intersectionMerge [.object [("a", .number 1)], .object [("a", .number 2), ("b", .null)]] =
      .object [("a", .number 2), ("b", .null)] ∧
    fieldsGet ([JsValue.object [("a", .number 1)],
        JsValue.object [("a", .number 2), ("b", .null)]].foldl assignObj []) "a" =
      lastWins [.object [("a", .number 1)], .object [("a", .number 2), ("b", .null)]] "a" := by
  refine ⟨claim3_intersection_merge_semantics.1 (.number 1), ?_, ?_, ?_, ?_, ?_⟩
  · exact claim3_intersection_merge_semantics.2.1 [string, number] (.boolean false)
      (List.cons_ne_nil _ _)
  · exact claim3_intersection_merge_semantics.2.2.1 [UnknownRecord, UnknownRecord]
      (.object [("a", .number 1)]) (List.cons_ne_nil _ _) rfl
  · exact claim3_intersection_merge_semantics.2.2.2.1 [.object [], .number 7]
      ⟨.number 7, by simp, rfl⟩
  · exact (claim3_intersection_merge_semantics.2.2.2.2
      [.object [("a", .number 1)], .object [("a", .number 2), ("b", .null)]]
      (by intro v hv
          simp only [List.mem_cons, List.not_mem_nil, or_false] at hv
          rcases hv with rfl | rfl <;> rfl)
      (by intro v hv
          simp only [List.mem_cons, List.not_mem_nil, or_false] at hv
          rcases hv with rfl | rfl <;> simp [objKeysNodup])).1
  · exact (claim3_intersection_merge_semantics.2.2.2.2
      [.object [("a", .number 1)], .object [("a", .number 2), ("b", .null)]]
      (by intro v hv
          simp only [List.mem_cons, List.not_mem_nil, or_false] at hv
          rcases hv with rfl | rfl <;> rfl)
      (by intro v hv
          simp only [List.mem_cons, List.not_mem_nil, or_false] at hv
          rcases hv with rfl | rfl <;> simp [objKeysNodup])).2 "a"

/-- C4: `sum(tag)(defs)` on a record input whose discriminant value is a
declared key `s` delegates the whole input to that member's decoder,
propagating the member's failure unchanged and, on the member's success,
overwriting the discriminant field of the output with `s` (for a record
output the field then reads exactly `s` — the third conjunct); a missing,
non-string or undeclared discriminant fails with
`Labeled("sum", u, [(tag, Leaf(<declared keys JSON-quoted, pipe-joined>, v))])`;
a zero-member sum fails like `never` on every input. -/
theorem claim4_sum_discriminant :
    (∀ (tag : String) (defs : List (String × Decoder)) (r : List (String × JsValue))
        (s : String) (d : Decoder) (e : DecodeError),
        defs ≠ [] → objGet r tag = .string s → lookupDec defs s = some d →
        d.decode (.object r) = .error e →
        (sum tag defs).decode (.object r) = .error e) ∧
    (∀ (tag : String) (defs : List (String × Decoder)) (r : List (String × JsValue))
        (s : String) (d : Decoder) (out : JsValue),
        defs ≠ [] → objGet r tag = .string s → lookupDec defs s = some d →
        d.decode (.object r) = .ok out →
        (sum tag defs).decode (.object r) = .ok (jsSet out tag (.string s))) ∧
    (∀ (fs : List (String × JsValue)) (k : String) (v : JsValue),
        fieldsGet (setField fs k v) k = some v) ∧
    (∀ (tag : String) (defs : List (String × Decoder)) (r : List (String × JsValue)),
        defs ≠ [] →
        (∀ s : String, objGet r tag = .string s → lookupDec defs s = none) →
        (sum tag defs).decode (.object r) =
          .error (.labeled "sum" (.object r)
            [(tag, .leaf (sumExpected defs) (objGet r tag))])) ∧
    (∀ (tag : String) (u : JsValue), (sum tag []).decode u = .error (.leaf "never" u)) := by
  refine ⟨?_, ?_, ?_, ?_, ?_⟩
  · intro tag defs r s d e hds hv hlk hd
    have hds' : defs.isEmpty = false := by
      cases defs with
      | nil => exact absurd rfl hds
      | cons a l => rfl
    simp [sum, hds', hv, hlk, hd]
  · intro tag defs r s d out hds hv hlk hd
    have hds' : defs.isEmpty = false := by
      cases defs with
      | nil => exact absurd rfl hds
      | cons a l => rfl
    simp [sum, hds', hv, hlk, hd]
  · intro fs k v
    rw [fieldsGet_setField]
    simp
  · intro tag defs r hds hmiss
    have hds' : defs.isEmpty = false := by
      cases defs with
      | nil => exact absurd rfl hds
      | cons a l => rfl
    cases hv : objGet r tag with
    | string s =>
      have hlk := hmiss s hv
      simp [sum, hds', hv, hlk]
    | undefined => simp [sum, hds', hv]
    | null => simp [sum, hds', hv]
    | boolean b => simp [sum, hds', hv]
    | number q => simp [sum, hds', hv]
    | array xs => simp [sum, hds', hv]
    | object fs => simp [sum, hds', hv]
  · intro tag u; rfl

/-- Witness for C4 at concrete inputs, including the spec's own example: the
discriminant selects the member, the member decodes the whole input, the
output keeps the discriminant value, and `( _tag: "B" )` against a one-member
mapping fails with the quoted declared key. -/
theorem claim4_sum_witness :
    (sum "t" [("A", string)]).decode (.object [("t", .string "A")]) =
      .error (.leaf "string" (.object [("t", .string "A")])) ∧
    (sum "t" [("A", UnknownRecord)]).decode
        (.object [("t", .string "A"), ("a", .number 1)]) =
      .ok (.object [("t", .string "A"), ("a", .number 1)]) ∧
    fieldsGet (setField [("t", .string "B")] "t" (.string "A")) "t" =
      some (.string "A") ∧
    (sum "_tag" [("A", UnknownRecord)]).decode (.object [("_tag", .string "B")]) =
      .error (.labeled "sum" (.object [("_tag", .string "B")])
        [("_tag", .leaf "\"A\"" (.string "B"))]) ∧
    (sum "t" ([] : List (String × Decoder))).decode .null =
      .error (.leaf "never" .null) := by
  refine ⟨?_, ?_, ?_, ?_, ?_⟩
  · exact claim4_sum_discriminant.1 "t" [("A", string)] [("t", .string "A")]
      "A" string _ (List.cons_ne_nil _ _) rfl rfl rfl
  · exact claim4_sum_discriminant.2.1 "t" [("A", UnknownRecord)]
      [("t", .string "A"), ("a", .number 1)] "A" UnknownRecord _
      (List.cons_ne_nil _ _) rfl rfl rfl
  · exact claim4_sum_discriminant.2.2.1 [("t", .string "B")] "t" (.string "A")
  · exact claim4_sum_discriminant.2.2.2.1 "_tag" [("A", UnknownRecord)]
      [("_tag", .string "B")] (List.cons_ne_nil _ _)
      (by intro s hs; cases hs; rfl)
  · exact claim4_sum_discriminant.2.2.2.2 "t" .null

/-- C5: `refinement(base, predicate, label)` propagates the base failure
unchanged, rejects a decoded value `b` failing the predicate with
`Leaf(label, b)` — the already-decoded value, not the raw input — and accepts
otherwise; `Int` rejects a non-integer number `n` with `Leaf("Int", n)`. -/
theorem claim5_refinement_semantics :
    (∀ (d : Decoder) (p : JsValue → Bool) (exp : String) (u : JsValue) (e : DecodeError),
        d.decode u = .error e → (refinement d p exp).decode u = .error e) ∧
    (∀ (d : Decoder) (p : JsValue → Bool) (exp : String) (u b : JsValue),
        d.decode u = .ok b → p b = false →
        (refinement d p exp).decode u = .error (.leaf exp b)) ∧
    (∀ (d : Decoder) (p : JsValue → Bool) (exp : String) (u b : JsValue),
        d.decode u = .ok b → p b = true →
        (refinement d p exp).decode u = .ok b) ∧
    (∀ q : ℚ, q.den ≠ 1 → Int.decode (.number q) = .error (.leaf "Int" (.number q))) := by
  refine ⟨?_, ?_, ?_, ?_⟩
  · intro d p exp u e h; simp [refinement, h]
  · intro d p exp u b h hp; simp [refinement, h, hp]
  · intro d p exp u b h hp; simp [refinement, h, hp]
  · intro q hq
    have hb : (q.den == 1) = false := beq_eq_false_iff_ne.mpr hq
    show (refinement number isIntegerV "Int").decode (.number q) = _
    simp [refinement, number, fromRefinement, isNumberV, isIntegerV, hb]

/-- Witness for C5 at concrete inputs, including `Int` on the non-integer
number one half. -/
theorem claim5_refinement_witness :
    (refinement number isIntegerV "Int").decode (.string "x") =
      .error (.leaf "number" (.string "x")) ∧
    (refinement number isIntegerV "Int").decode (.number oneHalf) =
      .error (.leaf "Int" (.number oneHalf)) ∧
    (refinement number isIntegerV "Int").decode (.number 3) = .ok (.number 3) ∧
    Int.decode (.number oneHalf) = .error (.leaf "Int" (.number oneHalf)) :=
  ⟨claim5_refinement_semantics.1 number isIntegerV "Int" (.string "x") _ rfl,
   claim5_refinement_semantics.2.1 number isIntegerV "Int" (.number oneHalf)
     (.number oneHalf) rfl (by decide),
   claim5_refinement_semantics.2.2.1 number isIntegerV "Int" (.number 3)
     (.number 3) rfl (by decide),
   claim5_refinement_semantics.2.2.2 oneHalf (by decide)⟩

/-- C10: an `n`-member `tuple` on an array input shorter than `n` reports no
arity or length mismatch: it behaves exactly as on the input padded with
`undefined` up to `n` (each missing position is decoded by its member decoder
applied to `undefined`), so the result is a `Failure(Indexed("tuple", input,
...))` listing the positions whose member rejects its value — or a `Success`
when every member accepts its value, padding included. -/
theorem claim10_tuple_short_input :
    ∀ (ds : List Decoder) (us : List JsValue), us.length < ds.length →
      tupleFailures ds us =
        tupleFailures ds (us ++ List.replicate (ds.length - us.length) .undefined) ∧
      tupleOks ds us =
        tupleOks ds (us ++ List.replicate (ds.length - us.length) .undefined) ∧
      (tupleFailures ds us ≠ [] →
        (tuple ds).decode (.array us) =
          .error (.indexed "tuple" (.array us) (tupleFailures ds us))) ∧
      (tupleFailures ds us = [] →
        (tuple ds).decode (.array us) = .ok (.array (tupleOks ds us))) := by
  intro ds us _
  have hpad : ∀ i : Nat,
      (us ++ List.replicate (ds.length - us.length) JsValue.undefined).getD i .undefined =
        us.getD i .undefined :=
    getD_append_replicate us (ds.length - us.length)
  refine ⟨?_, ?_, ?_, ?_⟩
  · rw [tupleFailures, tupleFailures]
    have hfun :
        (fun p : Nat × Decoder =>
          match p.2.decode
            ((us ++ List.replicate (ds.length - us.length) JsValue.undefined).getD
              p.1 .undefined) with
          | .error e => some (p.1, e)
          | .ok _ => none) =
        (fun p : Nat × Decoder =>
          match p.2.decode (us.getD p.1 .undefined) with
          | .error e => some (p.1, e)
          | .ok _ => none) := by
      funext p
      rw [hpad p.1]
    rw [hfun]
  · rw [tupleOks, tupleOks]
    have hfun :
        (fun p : Nat × Decoder =>
          match p.2.decode
            ((us ++ List.replicate (ds.length - us.length) JsValue.undefined).getD
              p.1 .undefined) with
          | .error _ => none
          | .ok v => some v) =
        (fun p : Nat × Decoder =>
          match p.2.decode (us.getD p.1 .undefined) with
          | .error _ => none
          | .ok v => some v) := by
      funext p
      rw [hpad p.1]
    rw [hfun]
  · intro h
    have hl : (tupleLoop ds us 0).2 = tupleFailures ds us := by
      rw [tupleLoop_snd]; rfl
    have hne : (tupleLoop ds us 0).2.isEmpty = false := by
      rw [hl]
      cases hfx : tupleFailures ds us with
      | nil => exact absurd hfx h
      | cons a l => rfl
    simp [tuple, hl, hne, h]
  · intro h
    have hl : (tupleLoop ds us 0).2 = tupleFailures ds us := by
      rw [tupleLoop_snd]; rfl
    have hl1 : (tupleLoop ds us 0).1 = tupleOks ds us := by
      rw [tupleLoop_fst]; rfl
    simp [tuple, hl, hl1, h]

/-- Witness for C10: a two-member tuple on a one-element array fails only at
the missing position when that member rejects `undefined`, and succeeds
outright when the members accept everything. -/
theorem claim10_tuple_short_input_witness :
    (tuple [string, string]).decode (.array [.string "a"]) =
      .error (.indexed "tuple" (.array [.string "a"]) [(1, .leaf "string" .undefined)]) ∧
    (tuple [of .null, of .null]).decode (.array [.boolean true]) =
      .ok (.array [.null, .null]) := by
  constructor
  · exact (claim10_tuple_short_input [string, string] [.string "a"]
      (by decide)).2.2.1 (List.cons_ne_nil _ _)
  · exact (claim10_tuple_short_input [of .null, of .null] [.boolean true]
      (by decide)).2.2.2 rfl

/-- C9: `toTree` renders each error node as the line
`Cannot decode <JSON of actual>, expected <expected>`; the children of an
`Indexed` node are the children's trees with the index in parentheses prefixed
to their root lines (subtrees untouched), the children of a `Labeled` node
carry the JSON-quoted key in parentheses, and `And`/`Or` children carry no
prefix; each child sits in the parent's forest, one level below it. -/
theorem claim9_toTree_rendering :
    (∀ e : DecodeError, (toTree e).value =
        "Cannot decode " ++ jsonStringify e.actual ++ ", expected " ++ e.expected) ∧
    (∀ (exp : String) (act : JsValue) (es : List (Nat × DecodeError)),
        toTree (.indexed exp act es) =
          .node (errMsg exp act)
            (es.map (fun p => prefixRoot ("(" ++ toString p.1 ++ ") ") (toTree p.2)))) ∧
    (∀ (exp : String) (act : JsValue) (es : List (String × DecodeError)),
        toTree (.labeled exp act es) =
          .node (errMsg exp act)
            (es.map (fun p => prefixRoot ("(" ++ jsonQuote p.1 ++ ") ") (toTree p.2)))) ∧
    (∀ (exp : String) (act : JsValue) (es : List DecodeError),
        toTree (.and exp act es) = .node (errMsg exp act) (es.map toTree) ∧
        toTree (.or exp act es) = .node (errMsg exp act) (es.map toTree)) ∧
    (∀ (p : String) (t : RoseTree),
        (prefixRoot p t).value = p ++ t.value ∧ (prefixRoot p t).forest = t.forest) := by
  refine ⟨?_, ?_, ?_, ?_, ?_⟩
  · intro e
    cases e <;> rfl
  · intro exp act es
    rw [show toTree (.indexed exp act es) = .node (errMsg exp act) (toTreeIdx es)
      from rfl, toTreeIdx_eq]
  · intro exp act es
    rw [show toTree (.labeled exp act es) = .node (errMsg exp act) (toTreeKey es)
      from rfl, toTreeKey_eq]
  · intro exp act es
    constructor
    · rw [show toTree (.and exp act es) = .node (errMsg exp act) (toTreeList es)
        from rfl, toTreeList_eq]
    · rw [show toTree (.or exp act es) = .node (errMsg exp act) (toTreeList es)
        from rfl, toTreeList_eq]
  · intro p t
    cases t with
    | node v f => exact ⟨rfl, rfl⟩

/-- C8: every `DecodeError` a decoder built from the engine's constructors
can produce is well formed — the child-error sequence of every `Indexed`,
`Labeled`, `And` or `Or` node anywhere in the tree is non-empty (when no
child failed, the combinators return a Success instead of an empty composite
node). -/
theorem claim8_error_tree_invariant :
    ∀ d : Decoder, Built d → ∀ (u : JsValue) (e : DecodeError),
      d.decode u = .error e → ErrOk e := by
  intro d hb
  induction hb with
  | fromRefinement p exp => exact fromRefinement_error_inv p exp
  | never => exact never_error_inv
  | refinement d p exp hb ih => exact refinement_error_inv d p exp ih
  | withExpected d exp hb ih => exact withExpected_error_inv d exp ih
  | type ds hmem ih => exact type_error_inv ds ih
  | partialD ds hmem ih => exact partialD_error_inv ds ih
  | record d hb ih => exact record_error_inv d ih
  | array d hb ih => exact array_error_inv d ih
  | tuple ds hmem ih => exact tuple_error_inv ds ih
  | intersection ds hmem ih => exact intersection_error_inv ds ih
  | sum tag defs hmem ih => exact sum_error_inv tag defs ih
  | union ds hmem ih => exact union_error_inv ds ih
  | lazy f hb ih => exact fun u e h => ih u e h
  | mapD d f hb ih =>
    intro u e h
    simp only [mapD] at h
    cases hd : d.decode u with
    | error e' =>
      rw [hd] at h
      simp only at h
      injection h with h2
      exact h2 ▸ ih u e' hd
    | ok v => rw [hd] at h; exact absurd h (by simp)
  | of a =>
    intro u e h
    exact absurd h (by simp [of])
  | alt fx fy hb1 hb2 ih1 ih2 =>
    intro u e h
    simp only [alt] at h
    cases hfx : fx.decode u with
    | ok v => rw [hfx] at h; exact absurd h (by simp)
    | error e1 =>
      rw [hfx] at h
      simp only at h
      exact ih2 u e h

/-- Witness for C8: a decoder built from `type` over `string` fields is in
the `Built` grammar, and the error it produces on an empty record is well
formed. -/
theorem claim8_error_tree_invariant_witness :
    ErrOk (.labeled "type" (.object [])
      [("a", .leaf "string" .undefined)]) := by
  refine claim8_error_tree_invariant (type [("a", string)]) ?_ (.object []) _ rfl
  refine Built.type [("a", string)] ?_
  intro p hp
  rcases List.mem_singleton.mp hp with rfl
  exact Built.fromRefinement isStringV "string"

/-- C7 counterexample: the claim fails for the generic `alt` operator.  On a
boolean input, both `string` (first alternative) and `number` (second
alternative) fail, yet the returned Failure is the bare `Leaf` of the second
alternative alone: the first alternative's error `Leaf("string", true)` occurs
nowhere in the returned error — it is discarded. -/
theorem claim7_alt_counterexample :
    string.decode (.boolean true) = .error (.leaf "string" (.boolean true)) ∧
    number.decode (.boolean true) = .error (.leaf "number" (.boolean true)) ∧
    (alt string (fun _ => number)).decode (.boolean true) =
      .error (.leaf "number" (.boolean true)) ∧
    DecodeError.leaf "string" (.boolean true) ∉
      errSubterms (.leaf "number" (.boolean true)) := by
  refine ⟨rfl, rfl, rfl, ?_⟩
  simp [errSubterms]

/-- C7 amended: of the two alternative-style combinators, only `union`
surfaces every alternative's failure (as `Or("union", u, [all errors])` when
all members fail); the generic `alt` operator, when both alternatives fail,
returns the second alternative's failure alone and discards the first's
error. -/
theorem claim7_amended_alternatives :
    (∀ (ds : List Decoder) (u : JsValue), ds ≠ [] →
        (∀ d ∈ ds, isErr (d.decode u) = true) →
        (union ds).decode u = .error (.or "union" u (memberErrs ds u)) ∧
        (memberErrs ds u).length = ds.length) ∧
    (∀ (fx : Decoder) (fy : Unit → Decoder) (u : JsValue) (e1 e2 : DecodeError),
        fx.decode u = .error e1 → (fy ()).decode u = .error e2 →
        (alt fx fy).decode u = .error e2) := by
  constructor
  · intro ds u hne hall
    constructor
    · rw [union_decode_ne_nil _ _ hne, unionLoop_allFail u ds hall]
    · rw [memberErrs_length]
      exact List.countP_eq_length.mpr hall
  · intro fx fy u e1 e2 h1 h2
    simp [alt, h1, h2]

/-- Witness for the amended C7 at concrete inputs. -/
theorem claim7_amended_witness :
    (union [string, number]).decode .null =
      .error (.or "union" .null [.leaf "string" .null, .leaf "number" .null]) ∧
    (alt boolean (fun _ => number)).decode (.string "s") =
      .error (.leaf "number" (.string "s")) := by
  constructor
  · exact (claim7_amended_alternatives.1 [string, number] .null (by simp)
      (by intro d hd
          simp only [List.mem_cons, List.not_mem_nil, or_false] at hd
          rcases hd with rfl | rfl <;> rfl)).1
  · exact claim7_amended_alternatives.2 boolean (fun _ => number) (.string "s")
      (.leaf "boolean" (.string "s")) (.leaf "number" (.string "s")) rfl rfl

end IoTs
